import Mathlib

/-!
Verification of the argument-resolution and bytecode-configuration core of
the fuels-ts repository against its specification.

The development shallowly embeds the two source files:

* `packages/program/src/contract.ts` — `Contract.buildFunction` and
  `Contract._mapObjIntoArgsArray` (the Argument Resolver);
* `packages/predicate/src/predicate.ts` — `Predicate.processPredicateData`,
  `Predicate.setConfigurableConstants`, the `Predicate` constructor and
  `populateTransactionPredicateData` (the Bytecode Configurator, Root
  Deriver call site and transaction-input population).

Bytes are modelled as `Nat`, byte buffers as `List Nat`, JavaScript objects
as ordered association lists `List (String × α)` with distinct keys
(`Object.entries` iterates in insertion order), thrown exceptions as
`Except`/`Option` error values, and in-place `Uint8Array` mutation as
explicit state passing (the buffer state at exit is returned together with
the error, so that partial writes of a failing call remain observable).
The external type codec (`@fuel-ts/abi-coder`) is an opaque parameter
`encode : String → α → List Nat`.
-/

namespace FuelsSpec

/-! ### Data model: ABI fragments (`@fuel-ts/abi-coder` interface shapes) -/

/-- A declared parameter of an ABI function: its name and declared type
(the `inputs` entries of a function fragment). -/
structure ParamSpec where
  name : String
  ty : String
deriving DecidableEq

/-- A function fragment: function name and ordered parameter list. -/
structure FunctionFragment where
  name : String
  inputs : List ParamSpec
deriving DecidableEq

/-! ### Argument Resolver (`packages/program/src/contract.ts`) -/

/-- Embedding of JavaScript `Array.prototype.indexOf` on a list of names:
index of the first occurrence of `s`, or `-1` when `s` is absent. -/
def jsIndexOf : List String → String → Int
  | [], _ => -1
  | n :: rest, s =>
    if n = s then 0
    else
      let r := jsIndexOf rest s
      if r = -1 then -1 else r + 1

/-- The comparator `(a, b) => orderedArgNames.indexOf(a[0]) - orderedArgNames.indexOf(b[0])`
passed to `Array.prototype.sort`, as the ordering relation it induces
(a sorts no later than b iff the comparator is ≤ 0). -/
def idxLe {α : Type} (ns : List String) (a b : String × α) : Prop :=
  jsIndexOf ns a.1 ≤ jsIndexOf ns b.1

/-- Strict version of `idxLe`, used to state uniqueness of the sorted order. -/
def idxLt {α : Type} (ns : List String) (a b : String × α) : Prop :=
  jsIndexOf ns a.1 < jsIndexOf ns b.1

instance decRelIdxLe {α : Type} (ns : List String) : DecidableRel (@idxLe α ns) :=
  fun _ _ => Int.decLe _ _

instance {α : Type} (ns : List String) : IsTotal (String × α) (idxLe ns) :=
  ⟨fun _ _ => Int.le_total _ _⟩

instance {α : Type} (ns : List String) : IsTrans (String × α) (idxLe ns) :=
  ⟨fun _ _ _ hab hbc => le_trans hab hbc⟩

instance {α : Type} (ns : List String) : IsAntisymm (String × α) (idxLt ns) :=
  ⟨fun _ _ h h' => absurd h' (not_lt.mpr (le_of_lt h))⟩

/-- Embedding of `Contract._mapObjIntoArgsArray(func, obj)`: turns a named-argument object
into a positional array.  The source returns `[]` for `undefined`, finds the
ABI function with the given name (`this.interface.abi?.functions.find`),
takes its declared input names (`orderedArgNames`), and sorts
`Object.entries(obj)` by `orderedArgNames.indexOf(key)` (ascending, JS
`Array.prototype.sort` with comparator `idx(a) - idx(b)`), keeping the
values.  The source's non-null assertion `orderedArgNames!` assumes the
fragment is present in the ABI; theorems carry that as a hypothesis. -/
def _mapObjIntoArgsArray {α : Type} (abiFunctions : List FunctionFragment)
    (func : FunctionFragment) (obj : Option (List (String × α))) : List α :=
  match obj with
  | none => []
  | some entries =>
    let abiFunction := abiFunctions.find? (fun fn => fn.name == func.name)
    let orderedArgNames := (abiFunction.map (fun f => f.inputs.map ParamSpec.name)).getD []
    (List.insertionSort (idxLe orderedArgNames) entries).map Prod.snd

/-- The argument shapes accepted by the closure `buildFunction` returns:
a positional array, or a named object (possibly `undefined`). -/
inductive ArgInput (α : Type) where
  | positional (args : List α)
  | named (obj : Option (List (String × α)))

/-- Embedding of `Contract.buildFunction(func)`: the returned closure forwards a positional
array unchanged and routes a named object through `_mapObjIntoArgsArray`. -/
def buildFunction {α : Type} (abiFunctions : List FunctionFragment)
    (func : FunctionFragment) : ArgInput α → List α
  | .positional args => args
  | .named obj => _mapObjIntoArgsArray abiFunctions func obj

/-- Error kinds of the Argument Resolver (spec §7 taxonomy). -/
inductive ResolveError where
  | arityMismatch
deriving DecidableEq

/-- Modelled from the spec: the arity validation of the Argument Resolver.
The check itself lives in `FunctionInvocationScope` / the abi coder
(repository code not under `src/`; `buildFunction` only constructs the
scope).  Spec §4.2: "length must equal `fragment.params.length`; mismatch
fails with `ArityMismatch`". -/
def validateArity {α : Type} (func : FunctionFragment) (args : List α) :
    Except ResolveError (List α) :=
  if args.length = func.inputs.length then .ok args else .error .arityMismatch

/-- The resolution pipeline: `buildFunction`'s shape dispatch (source)
followed by the spec-modelled arity validation of the invocation scope. -/
def resolve {α : Type} (abiFunctions : List FunctionFragment)
    (func : FunctionFragment) (input : ArgInput α) : Except ResolveError (List α) :=
  validateArity func (buildFunction abiFunctions func input)

/-! ### Bytecode Configurator and Predicate (`packages/predicate/src/predicate.ts`) -/

/-- A configurable-constant slot of the ABI: declared type (fed to the
external codec via `new AbiCoder().getCoder(fragmentType)`) and byte
offset into the bytecode. -/
structure ConfigurableSlot where
  fragmentType : String
  offset : Nat
deriving DecidableEq

/-- The parsed interface as consumed by `predicate.ts`: function fragments
(searched for `main`) and name-keyed configurable slots. -/
structure AbiInterface where
  fragments : List FunctionFragment
  configurables : List (String × ConfigurableSlot)
deriving DecidableEq

/-- Error kinds thrown by `predicate.ts` (the source wraps them into
`Error setting configurable constants: ...` resp. raises them via
`logger.throwArgumentError`; the wrapping preserves the kind).
`offsetOutOfRange` embeds the RangeError thrown by
`Uint8Array.prototype.set` when the write would not fit: the runtime
validates `offset + src.length ≤ target.length` before copying any byte. -/
inductive PredicateError where
  | noAbi
  | noConfigurables
  | unknownConfigurable (name : String)
  | offsetOutOfRange
  | noMainFunction
deriving DecidableEq

/-- In-bounds in-place write of `src` into `target` at `offset`: the effect
of `Uint8Array.prototype.set(src, offset)` on the target buffer. -/
def writeBytes (target src : List Nat) (offset : Nat) : List Nat :=
  target.take offset ++ src ++ target.drop (offset + src.length)

/-- The `Object.entries(configurableConstants).forEach` loop of
`Predicate.setConfigurableConstants`, with the mutated buffer passed as
explicit state: for each `(key, value)` entry in insertion order, look the
key up in `abiInterface.configurables` (unknown key → throw), encode the
value with the external codec, and `Uint8Array.set` the encoding at the
slot's offset (write past the end → RangeError, thrown before any byte of
this entry is copied).  Returns the buffer state at exit together with the
thrown error, if any; a throw leaves the writes of earlier entries in the
buffer. -/
def setEntries {α : Type} (encode : String → α → List Nat) (iface : AbiInterface) :
    List (String × α) → List Nat → List Nat × Option PredicateError
  | [], buf => (buf, none)
  | (key, value) :: rest, buf =>
    match iface.configurables.lookup key with
    | none => (buf, some (.unknownConfigurable key))
    | some slot =>
      let encoded := encode slot.fragmentType value
      if slot.offset + encoded.length ≤ buf.length then
        setEntries encode iface rest (writeBytes buf encoded slot.offset)
      else (buf, some .offsetOutOfRange)

/-- Embedding of `Predicate.setConfigurableConstants(bytes, configurableConstants, abiInterface)`:
requires an ABI and at least one declared configurable, then runs the entry
loop.  First component: the buffer state when the function returns or
throws (the source mutates `bytes` in place through the alias
`mutatedBytes`); second component: the thrown error, if any. -/
def setConfigurableConstants {α : Type} (encode : String → α → List Nat)
    (bytes : List Nat) (configurableConstants : List (String × α))
    (abiInterface : Option AbiInterface) : List Nat × Option PredicateError :=
  match abiInterface with
  | none => (bytes, some .noAbi)
  | some iface =>
    if iface.configurables.isEmpty then (bytes, some .noConfigurables)
    else setEntries encode iface configurableConstants bytes

/-- The configurable-application step of `Predicate.processPredicateData`:
the guard `configurableConstants && Object.keys(configurableConstants).length`
skips patching entirely for an absent or empty value set (the spec §4.3
`applyConfigurables` contract). -/
def applyConfigurables {α : Type} (encode : String → α → List Nat)
    (bytes : List Nat) (values : List (String × α))
    (iface : Option AbiInterface) : List Nat × Option PredicateError :=
  if values.isEmpty then (bytes, none)
  else setConfigurableConstants encode bytes values iface

/-- The record returned by `Predicate.processPredicateData`. -/
structure PredicateData where
  predicateBytes : List Nat
  predicateTypes : Option (List ParamSpec)
  predicateInterface : Option AbiInterface
deriving DecidableEq

/-- Embedding of `Predicate.processPredicateData(bytes, jsonAbi, configurableConstants)`:
parses the ABI when one is given and requires a `main` function fragment
(`logger.throwArgumentError` otherwise), then patches the configurable
constants.  A throw from `setConfigurableConstants` propagates; the
partially patched local buffer is discarded with the frame. -/
def processPredicateData {α : Type} (encode : String → α → List Nat)
    (bytes : List Nat) (jsonAbi : Option AbiInterface)
    (configurableConstants : Option (List (String × α))) :
    Except PredicateError PredicateData :=
  match jsonAbi with
  | some iface =>
    match iface.fragments.find? (fun fr => fr.name == "main") with
    | some mainFunction =>
      match applyConfigurables encode bytes (configurableConstants.getD []) (some iface) with
      | (patched, none) => .ok ⟨patched, some mainFunction.inputs, some iface⟩
      | (_, some e) => .error e
    | none => .error .noMainFunction
  | none =>
    match applyConfigurables encode bytes (configurableConstants.getD []) none with
    | (patched, none) => .ok ⟨patched, none, none⟩
    | (_, some e) => .error e

/-- Modelled from the spec: the Root Deriver `getContractRoot` lives in
`packages/predicate/src/utils`, which is not under `src/`.  Spec §4.4 and
§3 specify it as a pure content-derived identity whose invariant is that
identical bytecode+chainId always yields identical identity and changing
either changes the identity; the canonical model of exactly that contract
is the (bytecode, chainId) pair itself. -/
structure PredicateIdentity where
  bytecode : List Nat
  chainId : Nat
deriving DecidableEq

/-- Modelled from the spec: see `PredicateIdentity`. -/
def getContractRoot (bytecode : List Nat) (chainId : Nat) : PredicateIdentity :=
  ⟨bytecode, chainId⟩

/-- The state of a constructed `Predicate` (the fields the claims touch):
address, bytecode, `main` input types, and predicate data (initialized to
the empty byte array; set later by `setData`). -/
structure PredicateState where
  address : PredicateIdentity
  bytes : List Nat
  jsonAbi : List ParamSpec
  predicateData : List Nat
deriving DecidableEq

/-- The `Predicate` constructor: processes the predicate data (patching the
bytecode first) and only then derives the address from the final bytecode
together with the chain id. -/
def mkPredicate {α : Type} (encode : String → α → List Nat) (bytes : List Nat)
    (chainId : Nat) (jsonAbi : Option AbiInterface)
    (configurableConstants : Option (List (String × α))) :
    Except PredicateError PredicateState :=
  match processPredicateData encode bytes jsonAbi configurableConstants with
  | .error e => .error e
  | .ok pd =>
    .ok { address := getContractRoot pd.predicateBytes chainId
          bytes := pd.predicateBytes
          jsonAbi := pd.predicateTypes.getD []
          predicateData := [] }

/-- Input kinds of a transaction (`InputType` from `@fuel-ts/transactions`). -/
inductive TxInputType where
  | coin
  | contract
  | message
deriving DecidableEq

/-- A transaction input: the fields `populateTransactionPredicateData` reads
or writes, plus a representative untouched field (`amount`). -/
structure TxInput where
  type : TxInputType
  owner : PredicateIdentity
  amount : Nat
  predicate : Option (List Nat)
  predicateData : Option (List Nat)
deriving DecidableEq

/-- A transaction request: the inputs plus representative further fields
(`outputs`, `witnesses`) that population must leave unchanged. -/
structure TransactionRequest where
  inputs : List TxInput
  outputs : List Nat
  witnesses : List Nat
deriving DecidableEq

/-- Modelled from the spec: `transactionRequestify` (`@fuel-ts/providers`,
not under `src/`) turns a request-like value into a transaction request and
is the identity on values that already are requests; the embedding works on
requests directly. -/
def transactionRequestify (r : TransactionRequest) : TransactionRequest := r

/-- Embedding of `Predicate.populateTransactionPredicateData`: for each input of the
request whose type is `Coin` and whose owner equals the predicate's
address, set the input's `predicate` and `predicateData` fields; every
other input and every other field of the request is left unchanged.  A
total function: it never fails. -/
def populateTransactionPredicateData (p : PredicateState)
    (transactionRequestLike : TransactionRequest) : TransactionRequest :=
  let request := transactionRequestify transactionRequestLike
  { request with
    inputs := request.inputs.map (fun input =>
      if input.type = TxInputType.coin ∧ input.owner = p.address then
        { input with predicate := some p.bytes, predicateData := some p.predicateData }
      else input) }

/-- The fragment `transfer(to: Address, amount: u64)` from the spec's §8
scenario, used by concrete witnesses. -/
def transferFrag : FunctionFragment :=
  { name := "transfer", inputs := [⟨"to", "address"⟩, ⟨"amount", "u64"⟩] }

/-- A concrete stand-in for the external codec in witnesses: a fixed-width
(8-byte) big-endian-style encoding. -/
def u64Encode : String → Nat → List Nat := fun _ v => [0, 0, 0, 0, 0, 0, 0, v % 256]

/-- A concrete stand-in for the external codec in witnesses: a single-byte
encoding. -/
def byteEncode : String → Nat → List Nat := fun _ v => [v % 256]

/-- ABI interface with a `main` function and one configurable, for concrete
witnesses. -/
def mainIface : AbiInterface := ⟨[⟨"main", [⟨"a", "u64"⟩]⟩], [("x", ⟨"u8", 0⟩)]⟩

/-- The state built by `mkPredicate byteEncode [0, 0] 9 mainIface {x: 5}`. -/
def predWitness : PredicateState := ⟨⟨[5, 0], 9⟩, [5, 0], [⟨"a", "u64"⟩], []⟩

/-- A coin input owned by `predWitness`'s address. -/
def coinInputW : TxInput := ⟨.coin, ⟨[5, 0], 9⟩, 33, none, none⟩

/-- A contract input (not eligible for predicate data). -/
def contractInputW : TxInput := ⟨.contract, ⟨[5, 0], 9⟩, 44, none, none⟩

/-- A request holding the two inputs above. -/
def reqW : TransactionRequest := ⟨[coinInputW, contractInputW], [1, 2], [3]⟩

/-! ### Helper lemmas about `jsIndexOf` -/

theorem jsIndexOf_nonneg_of_mem {s : String} : ∀ {ns : List String},
    s ∈ ns → 0 ≤ jsIndexOf ns s := by
  intro ns hmem
  induction ns with
  | nil => simp at hmem
  | cons n rest ih =>
    by_cases h : n = s
    · simp [jsIndexOf, h]
    · have hs : s ∈ rest := by
        rcases List.mem_cons.mp hmem with h' | h'
        · exact absurd h'.symm h
        · exact h'
      have h0 := ih hs
      simp only [jsIndexOf, h, if_false]
      have hne : jsIndexOf rest s ≠ -1 := by omega
      simp only [hne, if_false]
      omega

theorem jsIndexOf_cons_self {n : String} {rest : List String} :
    jsIndexOf (n :: rest) n = 0 := by
  simp [jsIndexOf]

theorem jsIndexOf_cons_of_mem {n s : String} {rest : List String}
    (hne : n ≠ s) (hmem : s ∈ rest) :
    jsIndexOf (n :: rest) s = jsIndexOf rest s + 1 := by
  have h0 := jsIndexOf_nonneg_of_mem hmem
  have hne' : jsIndexOf rest s ≠ -1 := by omega
  simp [jsIndexOf, hne, hne']

/-- On a duplicate-free list of names, `jsIndexOf` is strictly increasing
along the list itself. -/
theorem jsIndexOf_pairwise_lt : ∀ {ns : List String}, ns.Nodup →
    ns.Pairwise (fun a b => jsIndexOf ns a < jsIndexOf ns b) := by
  intro ns hnd
  induction ns with
  | nil => exact List.Pairwise.nil
  | cons n rest ih =>
    have hn : n ∉ rest := (List.nodup_cons.mp hnd).1
    have hndr : rest.Nodup := (List.nodup_cons.mp hnd).2
    refine List.Pairwise.cons ?_ ?_
    · intro m hm
      have hne : n ≠ m := fun h => hn (h ▸ hm)
      have := jsIndexOf_nonneg_of_mem hm
      rw [jsIndexOf_cons_self, jsIndexOf_cons_of_mem hne hm]
      omega
    · refine (ih hndr).imp_of_mem ?_
      intro a b ha hb hab
      have hna : n ≠ a := fun h => hn (h ▸ ha)
      have hnb : n ≠ b := fun h => hn (h ▸ hb)
      rw [jsIndexOf_cons_of_mem hna ha, jsIndexOf_cons_of_mem hnb hb]
      omega

/-- Sorting any permutation of the graph of `f` over duplicate-free `names`
by `jsIndexOf names` recovers the graph in the order of `names`. -/
theorem insertionSort_idxLe_eq {α : Type} (names : List String) (f : String → α)
    (entries : List (String × α)) (hnd : names.Nodup)
    (hperm : List.Perm entries (names.map (fun n => (n, f n)))) :
    List.insertionSort (idxLe names) entries = names.map (fun n => (n, f n)) := by
  have hplt : names.Pairwise (fun a b => jsIndexOf names a < jsIndexOf names b) :=
    jsIndexOf_pairwise_lt hnd
  have hcanonlt : (names.map (fun n => (n, f n))).Pairwise (@idxLt α names) := by
    rw [List.pairwise_map]
    exact hplt
  have hsorted_le : List.Sorted (idxLe names) (List.insertionSort (idxLe names) entries) :=
    List.sorted_insertionSort (idxLe names) entries
  have hperm₁ : List.Perm (List.insertionSort (idxLe names) entries)
      (names.map (fun n => (n, f n))) :=
    (List.perm_insertionSort (idxLe names) entries).trans hperm
  have hcanonidx_nodup :
      ((names.map (fun n => (n, f n))).map (fun p => jsIndexOf names p.1)).Nodup := by
    rw [List.map_map]
    have h : names.Pairwise (fun a b => jsIndexOf names a ≠ jsIndexOf names b) :=
      hplt.imp (fun h => Int.ne_of_lt h)
    exact List.pairwise_map.mpr h
  have hsortidx_nodup :
      ((List.insertionSort (idxLe names) entries).map (fun p => jsIndexOf names p.1)).Nodup :=
    ((hperm₁.map (fun p => jsIndexOf names p.1)).nodup_iff).mpr hcanonidx_nodup
  have hne : (List.insertionSort (idxLe names) entries).Pairwise
      (fun a b => jsIndexOf names a.1 ≠ jsIndexOf names b.1) :=
    List.pairwise_map.mp hsortidx_nodup
  have hsorted_lt : (List.insertionSort (idxLe names) entries).Pairwise (@idxLt α names) := by
    refine List.Pairwise.imp₂ ?_ hsorted_le hne
    intro a b hle hneq
    exact lt_of_le_of_ne hle hneq
  exact List.eq_of_perm_of_sorted hperm₁ hsorted_lt hcanonlt

/-- C1: for every fragment present in its ABI and every named-argument
mapping covering exactly the fragment's declared parameters — an arbitrary
entry-order permutation of the graph of a value assignment `f` —
`_mapObjIntoArgsArray` yields the values in the fragment's declared
parameter order.  The right-hand side mentions only `f` and the declared
order, not `entries`, so the result is independent of the mapping's
entry/insertion order. -/
theorem mapObjIntoArgsArray_declared_order {α : Type} (abiFunctions : List FunctionFragment)
    (func : FunctionFragment) (f : String → α) (entries : List (String × α))
    (hfind : abiFunctions.find? (fun fn => fn.name == func.name) = some func)
    (hnd : (func.inputs.map ParamSpec.name).Nodup)
    (hperm : List.Perm entries
      ((func.inputs.map ParamSpec.name).map (fun n => (n, f n)))) :
    _mapObjIntoArgsArray abiFunctions func (some entries)
      = (func.inputs.map ParamSpec.name).map f := by
  have hgoal : _mapObjIntoArgsArray abiFunctions func (some entries)
      = (List.insertionSort (idxLe (func.inputs.map ParamSpec.name)) entries).map Prod.snd := by
    simp only [_mapObjIntoArgsArray, hfind, Option.map_some', Option.getD_some]
  rw [hgoal, insertionSort_idxLe_eq (func.inputs.map ParamSpec.name) f entries hnd hperm,
    List.map_map]
  simp [Function.comp]

/-- Witness for C1: the spec's scenario — caller supplies
`{amount: 500, to: 7}`; the resolved vector is `[7, 500]`. -/
theorem mapObjIntoArgsArray_declared_order_witness :
    _mapObjIntoArgsArray [transferFrag] transferFrag
        (some [("amount", (500 : Nat)), ("to", 7)]) = [7, 500] := by
  have h := mapObjIntoArgsArray_declared_order [transferFrag] transferFrag
    (fun n => if n = "to" then (7 : Nat) else 500) [("amount", 500), ("to", 7)]
    (by decide) (by decide) (by decide)
  simpa using h

/-- C6: positional resolution passes the argument sequence through unchanged
when its length equals the fragment's declared parameter count
(`buildFunction`'s array branch, from the source), and fails with
`ArityMismatch` when the lengths differ (spec-modelled validation in the
invocation scope). -/
theorem resolve_positional_arity {α : Type} (abiFunctions : List FunctionFragment)
    (func : FunctionFragment) (args : List α) :
    (args.length = func.inputs.length →
      resolve abiFunctions func (.positional args) = .ok args)
    ∧ (args.length ≠ func.inputs.length →
      resolve abiFunctions func (.positional args) = .error .arityMismatch) := by
  constructor <;> intro h <;> simp [resolve, buildFunction, validateArity, h]

/-- Witness for C6: `transfer` with two arguments passes through; with one
argument it fails with `ArityMismatch`. -/
theorem resolve_positional_arity_witness :
    resolve [transferFrag] transferFrag (.positional [(7 : Nat), 500]) = .ok [7, 500]
    ∧ resolve [transferFrag] transferFrag (.positional [(7 : Nat)]) = .error .arityMismatch :=
  ⟨(resolve_positional_arity [transferFrag] transferFrag [7, 500]).1 (by decide),
   (resolve_positional_arity [transferFrag] transferFrag [7]).2 (by decide)⟩

/-- C7 counterexample: named-argument resolution does not validate names.
On the fragment `transfer(to, amount)` with mapping `{y: 5, to: 7, amount: 500}`
(`y` undeclared) it does not fail with `UnknownParameter` — it returns the
vector `[5, 7, 500]`, placing the unknown key's value first (`indexOf = -1`);
and on the mapping `{to: 7}` (missing `amount`) it does not fail with
`MissingParameter` — it returns the short vector `[7]`. -/
theorem mapObjIntoArgsArray_no_name_validation_cex :
    _mapObjIntoArgsArray [transferFrag] transferFrag
        (some [("y", (5 : Nat)), ("to", 7), ("amount", 500)]) = [5, 7, 500]
    ∧ _mapObjIntoArgsArray [transferFrag] transferFrag
        (some [("to", (7 : Nat))]) = [7] := by
  constructor <;> decide

/-- C7 amended: for every fragment present in its ABI (the source's
`orderedArgNames!` non-null assertion, carried as `hfind` exactly as in the
declared-order theorem) the resolver performs no name validation and never
fails — for every named mapping the output vector is exactly a permutation
of the mapping's values: values of unknown keys are retained (no
`UnknownParameter`) and missing declared parameters are silently omitted,
yielding a shorter vector (no `MissingParameter`). -/
theorem mapObjIntoArgsArray_values_perm {α : Type} (abiFunctions : List FunctionFragment)
    (func : FunctionFragment) (entries : List (String × α))
    (hfind : abiFunctions.find? (fun fn => fn.name == func.name) = some func) :
    List.Perm (_mapObjIntoArgsArray abiFunctions func (some entries))
      (entries.map Prod.snd) := by
  simp only [_mapObjIntoArgsArray, hfind, Option.map_some', Option.getD_some]
  exact (List.perm_insertionSort _ entries).map Prod.snd

/-- Witness for the amended C7: on `transfer(to, amount)` with the mapping
`{y: 5, to: 7, amount: 500}`, resolution succeeds and returns a permutation
of the three supplied values. -/
theorem mapObjIntoArgsArray_values_perm_witness :
    List.Perm (_mapObjIntoArgsArray [transferFrag] transferFrag
        (some [("y", (5 : Nat)), ("to", 7), ("amount", 500)]))
      [5, 7, 500] :=
  mapObjIntoArgsArray_values_perm [transferFrag] transferFrag
    [("y", 5), ("to", 7), ("amount", 500)] (by decide)

/-! ### Frame lemmas for `writeBytes` and the entry loop -/

theorem writeBytes_length {target src : List Nat} {offset : Nat}
    (h : offset + src.length ≤ target.length) :
    (writeBytes target src offset).length = target.length := by
  simp only [writeBytes, List.length_append, List.length_take, List.length_drop]
  rw [min_eq_left (by omega)]
  omega

theorem writeBytes_getElem? {target src : List Nat} {offset : Nat}
    (h : offset + src.length ≤ target.length) (i : Nat) :
    (writeBytes target src offset)[i]?
      = if i < offset then target[i]?
        else if i < offset + src.length then src[i - offset]?
        else target[i]? := by
  have hto : (target.take offset).length = offset := by
    rw [List.length_take]; exact min_eq_left (by omega)
  rw [writeBytes, List.append_assoc, List.getElem?_append, hto]
  by_cases h1 : i < offset
  · rw [if_pos h1, if_pos h1, List.getElem?_take, if_pos h1]
  · rw [if_neg h1, if_neg h1, List.getElem?_append]
    by_cases h2 : i < offset + src.length
    · rw [if_pos (by omega), if_pos h2]
    · rw [if_neg (by omega), if_neg h2, List.getElem?_drop]
      congr 1
      omega

/-- The entry loop never changes the buffer's length: every performed write
is bounds-checked, so no write extends past the end of the buffer. -/
theorem setEntries_length {α : Type} (encode : String → α → List Nat) (iface : AbiInterface) :
    ∀ (entries : List (String × α)) (buf : List Nat),
      ((setEntries encode iface entries buf).1).length = buf.length := by
  intro entries
  induction entries with
  | nil => intro buf; rfl
  | cons e rest ih =>
    intro buf
    obtain ⟨key, value⟩ := e
    simp only [setEntries]
    cases hl : iface.configurables.lookup key with
    | none => rfl
    | some slot =>
      dsimp only
      by_cases hb : slot.offset + (encode slot.fragmentType value).length ≤ buf.length
      · rw [if_pos hb, ih, writeBytes_length hb]
      · rw [if_neg hb]

/-- C2: with a single declared configurable slot at offset `o` of encoded
width `w`, both within the buffer, applying a value for that slot succeeds
(no error), leaves every byte outside `[o, o+w)` unchanged, and makes the
bytes `[o, o+w)` equal to the external codec's encoding of the value under
the slot's declared type. -/
theorem setConfigurableConstants_single_slot {α : Type} (encode : String → α → List Nat)
    (frags : List FunctionFragment) (b : List Nat) (nm ty : String) (o w : Nat) (v : α)
    (hw : (encode ty v).length = w) (hbound : o + w ≤ b.length) :
    setConfigurableConstants encode b [(nm, v)] (some ⟨frags, [(nm, ⟨ty, o⟩)]⟩)
      = (writeBytes b (encode ty v) o, none)
    ∧ (writeBytes b (encode ty v) o).length = b.length
    ∧ (∀ i, i < o ∨ o + w ≤ i → (writeBytes b (encode ty v) o)[i]? = b[i]?)
    ∧ (∀ j, j < w → (writeBytes b (encode ty v) o)[o + j]? = (encode ty v)[j]?) := by
  have hb' : o + (encode ty v).length ≤ b.length := by rw [hw]; exact hbound
  refine ⟨?_, writeBytes_length hb', ?_, ?_⟩
  · simp [setConfigurableConstants, setEntries, List.lookup, hb']
  · intro i hi
    rw [writeBytes_getElem? hb' i]
    rcases hi with hlo | hhi
    · rw [if_pos hlo]
    · rw [if_neg (by omega), if_neg (by omega)]
  · intro j hj
    rw [writeBytes_getElem? hb' (o + j), if_neg (by omega), if_pos (by omega),
      Nat.add_sub_cancel_left]

/-- Witness for C2: the spec's §8 scenario — 64-byte bytecode, slot `fee`
at offset 40, width 8; after applying `{fee: 100}` byte 39 is still 0 and
byte 47 holds the last encoded byte. -/
theorem setConfigurableConstants_single_slot_witness :
    setConfigurableConstants u64Encode (List.replicate 64 0) [("fee", (100 : Nat))]
        (some ⟨[], [("fee", ⟨"u64", 40⟩)]⟩)
      = (writeBytes (List.replicate 64 0) (u64Encode "u64" 100) 40, none)
    ∧ (writeBytes (List.replicate 64 0) (u64Encode "u64" 100) 40)[39]? = some 0
    ∧ (writeBytes (List.replicate 64 0) (u64Encode "u64" 100) 40)[47]? = some 100 := by
  have h := setConfigurableConstants_single_slot u64Encode [] (List.replicate 64 0)
    "fee" "u64" 40 8 100 (by decide) (by decide)
  exact ⟨h.1, by decide, by decide⟩

/-- C4 counterexample: on a descriptor declaring only `{x}` (at offset 0),
applying the values `{x: 7, y: 9}` (in that insertion order) fails with
`UnknownConfigurable "y"` — but the buffer has already been mutated by the
earlier `x` entry: it exits as `[7, 0]`, not the original `[0, 0]`.  So the
failure does not leave the bytecode buffer unmodified. -/
theorem setConfigurableConstants_partial_write_cex :
    setConfigurableConstants byteEncode [0, 0] [("x", 7), ("y", 9)]
        (some ⟨[], [("x", ⟨"u8", 0⟩)]⟩)
      = ([7, 0], some (.unknownConfigurable "y"))
    ∧ ([7, 0] : List Nat) ≠ [0, 0] := by
  constructor <;> decide

/-- C4 amended: applying configurables with an undeclared name fails with
`UnknownConfigurable`, and the buffer is left unmodified exactly when the
undeclared name is processed before any declared one — in particular when
it is the first entry of the value set (covering the spec's scenario of a
value set containing only the undeclared `{y: ...}`).  Entries processed
before the failing one have already been written (see the
counterexample). -/
theorem setConfigurableConstants_unknown_first {α : Type} (encode : String → α → List Nat)
    (b : List Nat) (iface : AbiInterface) (y : String) (v : α) (rest : List (String × α))
    (hne : iface.configurables.isEmpty = false)
    (hunk : iface.configurables.lookup y = none) :
    setConfigurableConstants encode b ((y, v) :: rest) (some iface)
      = (b, some (.unknownConfigurable y)) := by
  simp [setConfigurableConstants, setEntries, hne, hunk]

/-- Witness for the amended C4: descriptor `{x}`, values `{y: 9}` — failure
with `UnknownConfigurable "y"` and untouched bytecode. -/
theorem setConfigurableConstants_unknown_first_witness :
    setConfigurableConstants byteEncode [0, 0] [("y", 9)]
        (some ⟨[], [("x", ⟨"u8", 0⟩)]⟩)
      = ([0, 0], some (.unknownConfigurable "y")) :=
  setConfigurableConstants_unknown_first byteEncode [0, 0] ⟨[], [("x", ⟨"u8", 0⟩)]⟩
    "y" 9 [] (by decide) (by decide)

/-- C5: applying a value for a slot whose offset plus encoded width exceeds
the bytecode's length fails with the out-of-range error (the RangeError of
`Uint8Array.set`, thrown before any byte is copied), leaving the buffer
unchanged; moreover no call ever writes past the end of the buffer — the
exit buffer always has the original length. -/
theorem setConfigurableConstants_out_of_range {α : Type} (encode : String → α → List Nat)
    (frags : List FunctionFragment) (b : List Nat) (nm ty : String) (o w : Nat) (v : α)
    (hw : (encode ty v).length = w) (hbound : b.length < o + w) :
    setConfigurableConstants encode b [(nm, v)] (some ⟨frags, [(nm, ⟨ty, o⟩)]⟩)
      = (b, some .offsetOutOfRange)
    ∧ ∀ (values : List (String × α)) (iface : Option AbiInterface),
        ((setConfigurableConstants encode b values iface).1).length = b.length := by
  constructor
  · have hb' : ¬ (o + (encode ty v).length ≤ b.length) := by rw [hw]; omega
    simp [setConfigurableConstants, setEntries, List.lookup, hb']
  · intro values iface
    cases iface with
    | none => rfl
    | some ifc =>
      by_cases hemp : ifc.configurables.isEmpty
      · simp [setConfigurableConstants, hemp]
      · simp only [setConfigurableConstants, Bool.not_eq_true] at hemp ⊢
        rw [hemp]
        simpa using setEntries_length encode ifc values b

/-- Witness for C5: slot at offset 60 of width 8 in a 64-byte buffer —
failure, untouched bytes, length preserved. -/
theorem setConfigurableConstants_out_of_range_witness :
    setConfigurableConstants u64Encode (List.replicate 64 0) [("fee", (100 : Nat))]
        (some ⟨[], [("fee", ⟨"u64", 60⟩)]⟩)
      = (List.replicate 64 0, some .offsetOutOfRange)
    ∧ ((setConfigurableConstants u64Encode (List.replicate 64 0) [("fee", (100 : Nat))]
        (some ⟨[], [("fee", ⟨"u64", 60⟩)]⟩)).1).length = 64 := by
  have h := setConfigurableConstants_out_of_range u64Encode [] (List.replicate 64 0)
    "fee" "u64" 60 8 100 (by decide) (by decide)
  refine ⟨h.1, ?_⟩
  rw [h.2 [("fee", 100)] (some ⟨[], [("fee", ⟨"u64", 60⟩)]⟩)]
  decide

/-- C8: applying configurables with an empty value set is a no-op — if
`applyConfigurables b v d` succeeded with bytecode `b'`, then
`applyConfigurables b' {} d` succeeds and returns `b'` unchanged (the
`processPredicateData` guard skips patching entirely for an empty set). -/
theorem applyConfigurables_empty_noop {α : Type} (encode : String → α → List Nat)
    (b b' : List Nat) (v : List (String × α)) (d : Option AbiInterface)
    (_h : applyConfigurables encode b v d = (b', none)) :
    applyConfigurables encode b' [] d = (b', none) := by
  simp [applyConfigurables]

/-- Witness for C8: patching `[0, 0]` with `{x: 7}` gives `[7, 0]`; patching
that result with `{}` returns it unchanged. -/
theorem applyConfigurables_empty_noop_witness :
    applyConfigurables byteEncode [7, 0] [] (some ⟨[], [("x", ⟨"u8", 0⟩)]⟩)
      = ([7, 0], none) :=
  applyConfigurables_empty_noop byteEncode [0, 0] [7, 0] [("x", 7)]
    (some ⟨[], [("x", ⟨"u8", 0⟩)]⟩) (by decide)

/-- C3: constructing a `Predicate` with configurable-constant values first
patches the bytecode and only then derives the address: the constructed
state's bytecode is the patched buffer, its address is the root of exactly
that final bytecode together with the chain id, and the root is
deterministic and injective — identical bytecode+chainId yields the same
identity, and changing either changes it. -/
theorem mkPredicate_address_from_final_bytecode {α : Type} (encode : String → α → List Nat)
    (bytes : List Nat) (chainId : Nat) (iface : AbiInterface)
    (values : List (String × α)) (p : PredicateState)
    (hok : mkPredicate encode bytes chainId (some iface) (some values) = .ok p) :
    p.bytes = (applyConfigurables encode bytes values (some iface)).1
    ∧ p.address = getContractRoot p.bytes chainId
    ∧ ∀ b₁ c₁ b₂ c₂, getContractRoot b₁ c₁ = getContractRoot b₂ c₂ ↔ (b₁ = b₂ ∧ c₁ = c₂) := by
  refine ⟨?_, ?_, ?_⟩
  · unfold mkPredicate processPredicateData at hok
    simp only [Option.getD_some] at hok
    cases hfind : iface.fragments.find? (fun fr => fr.name == "main") with
    | none => rw [hfind] at hok; simp at hok
    | some mf =>
      rw [hfind] at hok
      cases happ : applyConfigurables encode bytes values (some iface) with
      | mk patched err =>
        rw [happ] at hok
        cases err with
        | none =>
          simp only [Except.ok.injEq] at hok
          rw [← hok]
        | some e => simp at hok
  · unfold mkPredicate at hok
    cases hpd : processPredicateData encode bytes (some iface) (some values) with
    | error e => rw [hpd] at hok; simp at hok
    | ok pd =>
      rw [hpd] at hok
      simp only [Except.ok.injEq] at hok
      rw [← hok]
  · intro b₁ c₁ b₂ c₂
    simp [getContractRoot]

/-- Witness for C3: a concrete construction with `{x: 5}` — the final
bytecode is the patched `[5, 0]` and the address is its root at chain 9. -/
theorem mkPredicate_address_from_final_bytecode_witness :
    predWitness.bytes = (applyConfigurables byteEncode [0, 0] [("x", 5)] (some mainIface)).1
    ∧ predWitness.address = getContractRoot predWitness.bytes 9
    ∧ ∀ b₁ c₁ b₂ c₂, getContractRoot b₁ c₁ = getContractRoot b₂ c₂ ↔ (b₁ = b₂ ∧ c₁ = c₂) :=
  mkPredicate_address_from_final_bytecode byteEncode [0, 0] 9 mainIface [("x", 5)]
    predWitness (by rfl)

/-- C9: `populateTransactionPredicateData` is total (it never fails), leaves
`outputs` and `witnesses` and the number of inputs unchanged, and pointwise
sets `predicate` / `predicateData` on exactly those inputs whose type is
`Coin` and whose owner is the predicate's address, leaving every other
input (and every other field of a patched input) unchanged. -/
theorem populateTransactionPredicateData_frame (p : PredicateState)
    (req : TransactionRequest) :
    (populateTransactionPredicateData p req).outputs = req.outputs
    ∧ (populateTransactionPredicateData p req).witnesses = req.witnesses
    ∧ (populateTransactionPredicateData p req).inputs.length = req.inputs.length
    ∧ ∀ (i : Nat) (input : TxInput), req.inputs[i]? = some input →
        (populateTransactionPredicateData p req).inputs[i]?
          = some (if input.type = TxInputType.coin ∧ input.owner = p.address then
              { input with predicate := some p.bytes, predicateData := some p.predicateData }
            else input) := by
  refine ⟨rfl, rfl, by simp [populateTransactionPredicateData, transactionRequestify], ?_⟩
  intro i input hi
  simp [populateTransactionPredicateData, transactionRequestify, List.getElem?_map, hi]

/-- Witness for C9: on `reqW`, the coin input owned by the predicate gets
the predicate fields set; the contract input is untouched. -/
theorem populateTransactionPredicateData_frame_witness :
    (populateTransactionPredicateData predWitness reqW).inputs[0]?
      = some ⟨.coin, ⟨[5, 0], 9⟩, 33, some predWitness.bytes, some predWitness.predicateData⟩
    ∧ (populateTransactionPredicateData predWitness reqW).inputs[1]? = some contractInputW := by
  have h0 := (populateTransactionPredicateData_frame predWitness reqW).2.2.2 0 coinInputW
    (by rfl)
  have h1 := (populateTransactionPredicateData_frame predWitness reqW).2.2.2 1 contractInputW
    (by rfl)
  refine ⟨?_, ?_⟩
  · rw [h0, if_pos (by constructor <;> rfl)]
    rfl
  · rw [h1, if_neg (by intro h; exact absurd h.1 (by decide))]

/-- C10: constructing a `Predicate` with a JSON ABI none of whose fragments
is named `main` always fails with the argument error (rather than producing
a predicate with undefined argument types). -/
theorem mkPredicate_no_main_fails {α : Type} (encode : String → α → List Nat)
    (bytes : List Nat) (chainId : Nat) (iface : AbiInterface)
    (cfg : Option (List (String × α)))
    (hnomain : ∀ fr ∈ iface.fragments, fr.name ≠ "main") :
    mkPredicate encode bytes chainId (some iface) cfg = .error .noMainFunction := by
  have hfind : iface.fragments.find? (fun fr => fr.name == "main") = none := by
    rw [List.find?_eq_none]
    intro fr hfr
    simpa using hnomain fr hfr
  simp [mkPredicate, processPredicateData, hfind]

/-- Witness for C10: an ABI with only a `foo` fragment is rejected. -/
theorem mkPredicate_no_main_fails_witness :
    mkPredicate byteEncode [0] 1 (some ⟨[⟨"foo", []⟩], []⟩) none
      = .error .noMainFunction :=
  mkPredicate_no_main_fails byteEncode [0] 1 ⟨[⟨"foo", []⟩], []⟩ none (by decide)

end FuelsSpec
